import Mathlib

/-!
Shallow embedding of the frame-sampling / object-detection / anomaly-scoring
pipeline of `src/services/YOLOObjectDetectionService.ts`.

Numbers (JS `number`) are embedded as `ℚ`; timestamps (`Date.now()`) as `Int`;
counts and list lengths as `Nat`.  Fallible async code is embedded as `Except`.
The scheduling loop `detectObjectsOnVideo` is embedded as a step function on an
explicit state, driven by a list of events (scheduling ticks and completions of
the asynchronous recognition call).
-/

namespace AnomalyMonitor

/-- A bounding box `[x, y, width, height]` as used throughout the service. -/
structure BBox where
  x : ℚ
  y : ℚ
  w : ℚ
  h : ℚ
deriving DecidableEq

/-- `Detection` of the source: `{ bbox, class, score }` (`class` is a Lean
keyword, the field is named `cls`). -/
structure Detection where
  bbox : BBox
  cls : String
  score : ℚ
deriving DecidableEq

/-- `Anomaly` of the source: `{ object, bbox, score }`. -/
structure Anomaly where
  object : String
  bbox : BBox
  score : ℚ
deriving DecidableEq

/-- `AnomalyResult` of the source: `{ hasAnomaly, anomalyScore, anomalies }`. -/
structure AnomalyResult where
  hasAnomaly : Bool
  anomalyScore : ℚ
  anomalies : List Anomaly
deriving DecidableEq

/-- One entry of `objectHistory`: `{ class, count, timestamp }`. -/
structure HistoryEntry where
  cls : String
  count : Nat
  timestamp : Int
deriving DecidableEq

/-- `private historyWindow = 10000; // 10 seconds`. -/
def historyWindow : Int := 10000

/-- `classCounts[className]` built by the first `forEach` of `detectAnomalies`:
the number of detections of class `c` in the current frame. -/
def classCount (ds : List Detection) (c : String) : Nat :=
  (ds.filter (fun d => d.cls == c)).length

/-- The distinct classes of the frame in first-occurrence order: the key set
(`Object.keys(classCounts)`, insertion order) the service iterates to append
history entries. -/
def distinctClasses (ds : List Detection) : List String :=
  ds.foldl (fun acc d => if d.cls ∈ acc then acc else acc ++ [d.cls]) []

/-- The history update of `detectAnomalies`: push one entry per distinct class
of the current frame with its count and timestamp `now`, then filter the whole
ledger to `now - h.timestamp < this.historyWindow`. -/
def updateHistory (hist : List HistoryEntry) (ds : List Detection) (now : Int) :
    List HistoryEntry :=
  (hist ++ (distinctClasses ds).map (fun c => ({ cls := c, count := classCount ds c, timestamp := now } : HistoryEntry))).filter
    (fun h => decide (now - h.timestamp < historyWindow))

/-- `objectFrequencies[class]`: the sum of `count` over the ledger entries of
that class. -/
def objectFrequency (hist : List HistoryEntry) (c : String) : Nat :=
  ((hist.filter (fun h => h.cls == c)).map (fun h => h.count)).sum

/-- The `'pedestrian'` rule of the local `anomalyRules` table of
`detectAnomalies`: `frequency > 3 ? 0.7 + Math.min(frequency / 10, 0.3) : 0`. -/
def pedestrianRule (freq : Nat) : ℚ :=
  if 3 < freq then 7/10 + min ((freq : ℚ) / 10) (3/10) else 0

/-- The local `anomalyRules` table of `detectAnomalies` (the table actually
consulted by the per-detection pass), as a partial map from class name to a
rule function `(detection, frequency) -> score`. -/
def anomalyRules (c : String) : Option (Detection → Nat → ℚ) :=
  if c == "pedestrian" then some (fun _ freq => pedestrianRule freq)
  else if c == "car" then some (fun _ _ => 6/10)
  else if c == "bicycle" then some (fun _ _ => 6/10)
  else if c == "traffic light" then some (fun _ _ => 5/10)
  else if c == "motorcycle" then some (fun _ _ => 7/10)
  else if c == "truck" then some (fun _ _ => 7/10)
  else if c == "bus" then some (fun _ _ => 8/10)
  else none

/-- The per-detection body of the rule pass of `detectAnomalies`: consult the
rule table; a registered rule contributes an anomaly when its score is
positive; a class with no rule contributes the fixed score `0.7` exactly when
its frequency is below `2`. -/
def ruleCheck (freq : String → Nat) (d : Detection) : Option Anomaly :=
  match anomalyRules d.cls with
  | some rule =>
      let s := rule d (freq d.cls)
      if 0 < s then some ⟨d.cls, d.bbox, s⟩ else none
  | none =>
      if freq d.cls < 2 then some ⟨d.cls, d.bbox, 7/10⟩ else none

/-- `areBoxesClose` of the source.  The source compares
`Math.sqrt(dist2) < avgSize * 2`; over `ℚ` this is encoded by the equivalent
squared comparison `0 < avgSize * 2 ∧ dist2 < (avgSize * 2)^2` (equivalent
because the distance is the nonnegative square root of `dist2`). -/
def areBoxesClose (b1 b2 : BBox) : Bool :=
  let cx1 := b1.x + b1.w / 2
  let cy1 := b1.y + b1.h / 2
  let cx2 := b2.x + b2.w / 2
  let cy2 := b2.y + b2.h / 2
  let dist2 := (cx2 - cx1) ^ 2 + (cy2 - cy1) ^ 2
  let avgSize := (b1.w + b1.h + b2.w + b2.h) / 4
  decide (0 < avgSize * 2 ∧ dist2 < (avgSize * 2) ^ 2)

/-- The body of the inner interaction loop of `detectAnomalies` for the ordered
pair `(d1, d2)` with `d1` earlier in the frame than `d2`: boxes close and
classes different emit one synthetic anomaly with score `0.7`. -/
def interactionCheck (d1 d2 : Detection) : Option Anomaly :=
  if areBoxesClose d1.bbox d2.bbox = true ∧ d1.cls ≠ d2.cls then
    some ⟨"interaction:" ++ d1.cls ++ "_" ++ d2.cls, d1.bbox, 7/10⟩
  else none

/-- The nested `for i / for j = i+1 ...` interaction pass of `detectAnomalies`
in loop order. -/
def interactionAnomalies : List Detection → List Anomaly
  | [] => []
  | d :: rest =>
      rest.filterMap (fun d2 => interactionCheck d d2) ++ interactionAnomalies rest

/-- `detectAnomalies(detections)` of the source, with the mutable
`this.objectHistory` made explicit: takes the prior ledger and the clock value
`now = Date.now()`, returns the `AnomalyResult` together with the updated
ledger. -/
def detectAnomalies (hist : List HistoryEntry) (ds : List Detection) (now : Int) :
    AnomalyResult × List HistoryEntry :=
  let hist2 := updateHistory hist ds now
  let freq : String → Nat := fun c => objectFrequency hist2 c
  let anomalies := ds.filterMap (ruleCheck freq) ++ interactionAnomalies ds
  let score : ℚ :=
    if 0 < anomalies.length then
      (anomalies.map Anomaly.score).sum / (anomalies.length : ℚ)
    else 0
  ({ hasAnomaly := decide (0 < anomalies.length),
     anomalyScore := score,
     anomalies := anomalies }, hist2)

/-- A raw prediction of the underlying COCO-SSD model, as consumed by
`runYoloDetection`: `{ bbox, class, score }`. -/
structure Prediction where
  bbox : BBox
  cls : String
  score : ℚ
deriving DecidableEq

/-- The class remap of `runYoloDetection`: `person -> pedestrian`,
`truck | car -> car`, `motorcycle | bicycle -> bicycle`, everything else
unchanged. -/
def remapClass (c : String) : String :=
  if c == "person" then "pedestrian"
  else if c == "truck" || c == "car" then "car"
  else if c == "motorcycle" || c == "bicycle" then "bicycle"
  else c

/-- `const lowerScoreThreshold = 0.05` of `runYoloDetection`. -/
def lowerScoreThreshold : ℚ := 1/20

/-- `runYoloDetection(videoElement)` of the source, with the implicit inputs
made explicit: `modelLoaded` stands for `this.cocoSsdModel` being non-null,
`videoPresent` for the video element being non-null, `videoWidth`/`videoHeight`
for its pixel dimensions (JS `!videoElement.videoWidth` is true exactly when
the width is `0`), and `preds` for what the model's `detect` resolves with.
The promise is embedded as `Except`: `.error` is the rejection path. -/
def runYoloDetection (modelLoaded : Bool) (videoPresent : Bool)
    (videoWidth videoHeight : Nat) (preds : List Prediction) :
    Except String (List Detection) :=
  if modelLoaded = false then .error "Model not loaded"
  else if videoPresent = false ∨ videoWidth = 0 ∨ videoHeight = 0 then .ok []
  else
    .ok (((preds.map (fun p =>
        ({ bbox := p.bbox, cls := remapClass p.cls, score := p.score } : Detection))).filter
      (fun d => decide (lowerScoreThreshold ≤ d.score))))

/-- `setFrameSkip(skip)` of the source: `this.frameSkip = Math.max(0, skip)`. -/
def setFrameSkip (skip : Int) : Int := max 0 skip

/-- The mutable state of the scheduling loop of `detectObjectsOnVideo`.
`frameSkip` and `frameCount` are `Nat` because both are nonnegative in every
reachable state (`frameSkip` is only ever assigned a clamped value, and
`frameCount` a remainder).  `inFlight` is a ghost field not present in the
source: it counts the recognition calls issued and not yet completed (the
pending `runYoloDetection` promises), which is what the single-in-flight
property speaks about. -/
structure SchedState where
  frameSkip : Nat
  frameCount : Nat
  processingFrame : Bool
  lastDetections : List Detection
  lastResult : AnomalyResult
  history : List HistoryEntry
  inFlight : Nat
deriving DecidableEq

/-- The service's initial state: `frameSkip = 2`, `frameCount = 0`,
`processingFrame = false`, empty cached detections and history, and the empty
`lastAnomalyResult`. -/
def initState : SchedState :=
  { frameSkip := 2
    frameCount := 0
    processingFrame := false
    lastDetections := []
    lastResult := { hasAnomaly := false, anomalyScore := 0, anomalies := [] }
    history := []
    inFlight := 0 }

/-- What one scheduling tick of `detectFrame` does, beyond updating the state:
start a new recognition call, bail out because the video is not ready, deliver
the cached `(lastDetections, lastAnomalyResult)` pair to the callback, or
deliver nothing (skipped tick with an empty cache). -/
inductive TickOutcome where
  | startCall
  | waitVideo
  | emitCached
  | silent
deriving DecidableEq

/-- One synchronous scheduling tick of `detectFrame`, up to the `await` on the
recognition call: increment `frameCount` modulo `frameSkip + 1`; when
`(frameCount == 0 || lastDetections.length == 0) && !processingFrame`, set
`processingFrame` and either issue the recognition call (video ready,
`readyState >= 2`) or clear the flag again and retry next tick (video not
ready, which leaves the flag where it was since it was `false` by the guard);
otherwise deliver the cached pair when `lastDetections.length > 0`. -/
def tickStep (s : SchedState) (videoReady : Bool) : SchedState × TickOutcome :=
  let fc := (s.frameCount + 1) % (s.frameSkip + 1)
  if (fc = 0 ∨ s.lastDetections = []) ∧ s.processingFrame = false then
    if videoReady then
      ({ s with frameCount := fc, processingFrame := true, inFlight := s.inFlight + 1 },
       TickOutcome.startCall)
    else
      ({ s with frameCount := fc }, TickOutcome.waitVideo)
  else if s.lastDetections ≠ [] then
    ({ s with frameCount := fc }, TickOutcome.emitCached)
  else
    ({ s with frameCount := fc }, TickOutcome.silent)

/-- The continuation of `detectFrame` after the awaited recognition call
settles: on success run `detectAnomalies`, store `lastDetections` and
`lastAnomalyResult` and deliver them; on failure only report the error.  In
both cases the `finally` block clears `processingFrame`.  Guarded on an
outstanding call (`inFlight > 0`): completions only happen for issued calls. -/
def completeStep (s : SchedState) (success : Bool) (ds : List Detection) (now : Int) :
    SchedState :=
  if s.inFlight = 0 then s
  else if success then
    let r := detectAnomalies s.history ds now
    { s with inFlight := s.inFlight - 1
             processingFrame := false
             lastDetections := ds
             lastResult := r.1
             history := r.2 }
  else
    { s with inFlight := s.inFlight - 1, processingFrame := false }

/-- An event of the cooperative loop: a scheduling tick (with the video's
readiness at that instant) or the completion of the outstanding recognition
call (with its success, the detections it resolved with, and the clock). -/
inductive Event where
  | tick (videoReady : Bool)
  | complete (success : Bool) (ds : List Detection) (now : Int)

/-- The state transition of one event. -/
def step (s : SchedState) : Event → SchedState
  | Event.tick v => (tickStep s v).1
  | Event.complete success ds now => completeStep s success ds now

/-- Run the loop over a whole event sequence. -/
def run (s : SchedState) (evs : List Event) : SchedState :=
  evs.foldl step s

/-- The flag discipline of the loop: the ghost count of in-flight recognition
calls is `1` exactly when `processingFrame` is set, else `0`. -/
def FlagInv (s : SchedState) : Prop :=
  s.inFlight = if s.processingFrame then 1 else 0

/-- The state effect of `setFrameSkip` on the service state:
`this.frameSkip = Math.max(0, skip)` (nonnegative, hence representable as the
`Nat` field). -/
def applyFrameSkip (s : SchedState) (skip : Int) : SchedState :=
  { s with frameSkip := (setFrameSkip skip).toNat }

/-- C2: for every detection list, prior history and clock value, the
`AnomalyResult` returned by `detectAnomalies` has `anomalyScore` equal to the
arithmetic mean of the scores of its anomalies when that list is non-empty and
exactly `0` when it is empty, and `hasAnomaly` is true iff the anomalies list
is non-empty. -/
theorem anomaly_score_is_mean (hist : List HistoryEntry) (ds : List Detection) (now : Int) :
    ((detectAnomalies hist ds now).1.anomalyScore =
      if (detectAnomalies hist ds now).1.anomalies = [] then 0
      else (((detectAnomalies hist ds now).1.anomalies.map Anomaly.score).sum /
        (((detectAnomalies hist ds now).1.anomalies.length : ℚ))))
    ∧ ((detectAnomalies hist ds now).1.hasAnomaly = true ↔
        (detectAnomalies hist ds now).1.anomalies ≠ []) := by
  have key : ∀ l : List Anomaly,
      ((if 0 < l.length then (l.map Anomaly.score).sum / ((l.length : ℚ)) else 0) =
        if l = [] then 0 else (l.map Anomaly.score).sum / ((l.length : ℚ)))
      ∧ (decide (0 < l.length) = true ↔ l ≠ []) := by
    intro l
    cases l with
    | nil => simp
    | cons a t => simp
  exact ⟨(key _).1, (key _).2⟩

/-- C4: after the ledger update performed by `detectAnomalies` at clock value
`now`, every retained entry satisfies `now - timestamp < historyWindow`, for
any prior ledger contents (including non-monotonic timestamps); hence
re-filtering the updated ledger by the window changes nothing, and the
frequency map computed from it counts no out-of-window entry. -/
theorem history_window_invariant (hist : List HistoryEntry) (ds : List Detection) (now : Int) :
    (∀ e ∈ (detectAnomalies hist ds now).2, now - e.timestamp < historyWindow)
    ∧ ((detectAnomalies hist ds now).2.filter
        (fun e => decide (now - e.timestamp < historyWindow)) = (detectAnomalies hist ds now).2)
    ∧ (∀ c, objectFrequency (detectAnomalies hist ds now).2 c =
        objectFrequency ((detectAnomalies hist ds now).2.filter
          (fun e => decide (now - e.timestamp < historyWindow))) c) := by
  have h2 : (detectAnomalies hist ds now).2 = updateHistory hist ds now := rfl
  rw [h2]
  have hmem : ∀ e ∈ updateHistory hist ds now, now - e.timestamp < historyWindow := by
    intro e he
    simp only [updateHistory, List.mem_filter, decide_eq_true_eq] at he
    exact he.2
  have hfix : (updateHistory hist ds now).filter
      (fun e => decide (now - e.timestamp < historyWindow)) = updateHistory hist ds now := by
    apply List.filter_eq_self.mpr
    intro e he
    exact decide_eq_true (hmem e he)
  exact ⟨hmem, hfix, fun c => by rw [hfix]⟩

/-- C8 counterexample: with the model loaded, a frame of zero width does not
take the failure path — `runYoloDetection` resolves successfully with the
empty detection list. -/
theorem zero_dim_frame_resolves :
    runYoloDetection true true 0 480 [] = Except.ok ([] : List Detection) := rfl

/-- C8 amended: `runYoloDetection` rejects (with the `Model not loaded` error)
on every call made before a successful load; a frame of zero width or zero
height with the model ready is not a failure: the call resolves successfully
with the empty detection list. -/
theorem detect_error_paths (videoPresent : Bool) (w h : Nat) (preds : List Prediction) :
    runYoloDetection false videoPresent w h preds = Except.error "Model not loaded"
    ∧ (w = 0 ∨ h = 0 → runYoloDetection true videoPresent w h preds =
        Except.ok ([] : List Detection)) := by
  constructor
  · rfl
  · intro hwh
    unfold runYoloDetection
    rw [if_neg (by simp), if_pos (Or.inr hwh)]

/-- C8 amended witness at a concrete input: a 0×480 frame with the model ready
resolves with the empty list, and the not-loaded call rejects. -/
theorem detect_error_paths_witness :
    runYoloDetection false true 640 480 [] = Except.error "Model not loaded"
    ∧ ((0 : Nat) = 0 ∨ (480 : Nat) = 0 → runYoloDetection true true 0 480 [] =
        Except.ok ([] : List Detection)) :=
  detect_error_paths true 0 480 []

/-- C9: `setFrameSkip n` stores `max 0 n`: negative input is clamped to `0`
(in particular `setFrameSkip (-3)` yields an effective skip of `0`),
non-negative input is stored unchanged, and the stored value keeps the
scheduling modulus `frameSkip + 1` strictly positive. -/
theorem frame_skip_clamp (n : Int) :
    setFrameSkip n = max 0 n
    ∧ (n < 0 → setFrameSkip n = 0)
    ∧ (0 ≤ n → setFrameSkip n = n)
    ∧ (∀ s : SchedState, ((applyFrameSkip s n).frameSkip : Int) = setFrameSkip n
        ∧ 0 < (applyFrameSkip s n).frameSkip + 1)
    ∧ setFrameSkip (-3) = 0 := by
  refine ⟨rfl, ?_, ?_, ?_, by decide⟩
  · intro hneg
    exact max_eq_left (le_of_lt hneg)
  · intro hpos
    exact max_eq_right hpos
  · intro s
    refine ⟨Int.toNat_of_nonneg (le_max_left 0 n), Nat.succ_pos _⟩

/-- C6: the crowd-sensitive pedestrian rule of the rule table is `0` at or
below the frequency threshold `3`, at least the base `0.7` above it, is
non-decreasing in the frequency, and follows the shape
`base + min(frequency / scale, cap - base)` with base `0.7`, scale `10` and
cap `1.0`. -/
theorem pedestrian_rule_shape :
    (∃ r, anomalyRules "pedestrian" = some r ∧ ∀ d f, r d f = pedestrianRule f)
    ∧ (∀ f, f ≤ 3 → pedestrianRule f = 0)
    ∧ (∀ f, 3 < f → 7/10 ≤ pedestrianRule f)
    ∧ (∀ f1 f2, f1 ≤ f2 → pedestrianRule f1 ≤ pedestrianRule f2)
    ∧ (∀ f, pedestrianRule f = if 3 < f then 7/10 + min ((f : ℚ) / 10) (3/10) else 0) := by
  have base_le : ∀ f : Nat, 3 < f → (7/10 : ℚ) ≤ pedestrianRule f := by
    intro f hf
    rw [pedestrianRule, if_pos hf]
    have hmin : (0 : ℚ) ≤ min ((f : ℚ) / 10) (3/10) :=
      le_min (by positivity) (by norm_num)
    linarith
  refine ⟨⟨fun _ freq => pedestrianRule freq, rfl, fun d f => rfl⟩, ?_, base_le, ?_, fun f => rfl⟩
  · intro f hf
    rw [pedestrianRule, if_neg (Nat.not_lt.mpr hf)]
  · intro f1 f2 h12
    by_cases h1 : 3 < f1
    · have h2 : 3 < f2 := lt_of_lt_of_le h1 h12
      rw [pedestrianRule, if_pos h1, pedestrianRule, if_pos h2]
      have hc : ((f1 : ℚ)) ≤ ((f2 : ℚ)) := by exact_mod_cast h12
      gcongr
    · rw [pedestrianRule, if_neg h1]
      by_cases h2 : 3 < f2
      · exact le_trans (by norm_num) (base_le f2 h2)
      · rw [pedestrianRule, if_neg h2]

/-- C7: a detection whose class has no registered rule contributes an anomaly
with the fixed score `0.7` iff that class's frequency — computed from the
ledger updated with the current frame's counts — is below the rarity threshold
`2`; at or above the threshold it contributes nothing.  The second conjunct
ties the per-detection pass to the output of `detectAnomalies`. -/
theorem default_rule_rarity (hist : List HistoryEntry) (ds : List Detection) (now : Int)
    (d : Detection) (h : anomalyRules d.cls = none) :
    (ruleCheck (fun c => objectFrequency (updateHistory hist ds now) c) d =
      if objectFrequency (updateHistory hist ds now) d.cls < 2
      then some ⟨d.cls, d.bbox, 7/10⟩ else none)
    ∧ ((detectAnomalies hist ds now).1.anomalies =
        ds.filterMap (ruleCheck (fun c => objectFrequency (updateHistory hist ds now) c))
          ++ interactionAnomalies ds) := by
  constructor
  · unfold ruleCheck
    rw [h]
  · rfl

/-- A concrete detection of a class with no registered anomaly rule. -/
def dogDetection : Detection :=
  { bbox := { x := 0, y := 0, w := 10, h := 10 }, cls := "dog", score := 9/10 }

/-- C7 witness: the rarity default applied to a concrete `dog` detection
(a class the rule table does not register). -/
theorem default_rule_rarity_witness :
    ruleCheck (fun c => objectFrequency (updateHistory [] [dogDetection] 0) c) dogDetection =
      if objectFrequency (updateHistory [] [dogDetection] 0) dogDetection.cls < 2
      then some ⟨dogDetection.cls, dogDetection.bbox, 7/10⟩ else none :=
  (default_rule_rarity [] [dogDetection] 0 dogDetection rfl).1

/-- A scheduling tick preserves the flag discipline. -/
theorem flagInv_tick (s : SchedState) (v : Bool) (h : FlagInv s) : FlagInv (tickStep s v).1 := by
  unfold FlagInv at h
  simp only [tickStep]
  split_ifs with hg hv
  · have h0 : s.inFlight = 0 := by
      rw [hg.2] at h
      simpa using h
    unfold FlagInv
    simp [h0]
  · unfold FlagInv
    simpa using h
  · unfold FlagInv
    simpa using h
  · unfold FlagInv
    simpa using h

/-- A completion preserves the flag discipline. -/
theorem flagInv_complete (s : SchedState) (success : Bool) (ds : List Detection) (now : Int)
    (h : FlagInv s) : FlagInv (completeStep s success ds now) := by
  unfold FlagInv at h
  simp only [completeStep]
  split_ifs with h0 hs
  · unfold FlagInv
    exact h
  · have h1 : s.inFlight = 1 := by
      cases hb : s.processingFrame with
      | false =>
          rw [hb] at h
          simp at h
          exact absurd h h0
      | true =>
          rw [hb] at h
          simpa using h
    unfold FlagInv
    simp [h1]
  · have h1 : s.inFlight = 1 := by
      cases hb : s.processingFrame with
      | false =>
          rw [hb] at h
          simp at h
          exact absurd h h0
      | true =>
          rw [hb] at h
          simpa using h
    unfold FlagInv
    simp [h1]

/-- Any event preserves the flag discipline. -/
theorem flagInv_step (s : SchedState) (e : Event) (h : FlagInv s) : FlagInv (step s e) := by
  cases e with
  | tick v => exact flagInv_tick s v h
  | complete success ds now => exact flagInv_complete s success ds now h

/-- Any event sequence preserves the flag discipline. -/
theorem flagInv_run (s : SchedState) (evs : List Event) (h : FlagInv s) : FlagInv (run s evs) := by
  induction evs generalizing s with
  | nil => exact h
  | cons e t ih => exact ih (step s e) (flagInv_step s e h)

/-- C1: for any sequence of events of the detection loop started from the
service's initial state, at most one recognition call is in flight; a tick
issues a new call only when `processingFrame` is clear and sets it (raising
the in-flight count by one), a tick that issues no call leaves the in-flight
count unchanged, and a completion (success or failure) of an outstanding call
clears the flag and lowers the in-flight count by one — so two recognition
calls never overlap. -/
theorem single_call_in_flight (evs : List Event) :
    (run initState evs).inFlight ≤ 1
    ∧ (∀ s : SchedState, ∀ v : Bool,
        (tickStep s v).2 = TickOutcome.startCall →
          s.processingFrame = false
          ∧ (tickStep s v).1.processingFrame = true
          ∧ (tickStep s v).1.inFlight = s.inFlight + 1)
    ∧ (∀ s : SchedState, ∀ v : Bool, (tickStep s v).2 ≠ TickOutcome.startCall →
        (tickStep s v).1.inFlight = s.inFlight)
    ∧ (∀ (s : SchedState) (success : Bool) (ds : List Detection) (now : Int),
        s.inFlight ≠ 0 →
          (completeStep s success ds now).processingFrame = false
          ∧ (completeStep s success ds now).inFlight = s.inFlight - 1) := by
  refine ⟨?_, ?_, ?_, ?_⟩
  · have hinv : FlagInv (run initState evs) := flagInv_run initState evs (by rfl)
    unfold FlagInv at hinv
    rw [hinv]
    split <;> simp
  · intro s v hout
    simp only [tickStep] at hout ⊢
    by_cases hg : ((s.frameCount + 1) % (s.frameSkip + 1) = 0 ∨ s.lastDetections = [])
        ∧ s.processingFrame = false
    · rw [if_pos hg] at hout ⊢
      by_cases hv : v = true
      · rw [if_pos hv]
        exact ⟨hg.2, rfl, rfl⟩
      · rw [if_neg hv] at hout
        exact absurd hout (by simp)
    · rw [if_neg hg] at hout
      by_cases hne : s.lastDetections ≠ []
      · rw [if_pos hne] at hout
        exact absurd hout (by simp)
      · rw [if_neg hne] at hout
        exact absurd hout (by simp)
  · intro s v hout
    simp only [tickStep] at hout ⊢
    by_cases hg : ((s.frameCount + 1) % (s.frameSkip + 1) = 0 ∨ s.lastDetections = [])
        ∧ s.processingFrame = false
    · rw [if_pos hg] at hout ⊢
      by_cases hv : v = true
      · rw [if_pos hv] at hout
        exact absurd rfl hout
      · rw [if_neg hv]
    · rw [if_neg hg]
      by_cases hne : s.lastDetections ≠ []
      · rw [if_pos hne]
      · rw [if_neg hne]
  · intro s success ds now h0
    simp only [completeStep]
    rw [if_neg h0]
    by_cases hs : success = true
    · rw [if_pos hs]
      exact ⟨rfl, rfl⟩
    · rw [if_neg hs]
      exact ⟨rfl, rfl⟩

/-- Among the next `m` tick positions there is exactly one where a counter
running modulo `m` reaches `0`. -/
theorem exists_unique_zero_tick (a m : Nat) (hm : 0 < m) :
    ∃! t, t < m ∧ (a + t) % m = 0 := by
  have key : ∀ t1 t2, t1 < m → t2 < m → (a + t1) % m = 0 → (a + t2) % m = 0 → t1 = t2 := by
    intro t1 t2 h1 h2 hz1 hz2
    have heq : (a + t1) % m = (a + t2) % m := by rw [hz1, hz2]
    have hmod : t1 % m = t2 % m := Nat.ModEq.add_left_cancel' a heq
    rwa [Nat.mod_eq_of_lt h1, Nat.mod_eq_of_lt h2] at hmod
  have hblt : a % m < m := Nat.mod_lt a hm
  have hex : (a + (m - a % m) % m) % m = 0 := by
    rcases Nat.eq_zero_or_pos (a % m) with hb | hb
    · rw [hb, Nat.sub_zero, Nat.mod_self, Nat.add_zero, hb]
    · have hlt : m - a % m < m := by omega
      rw [Nat.mod_eq_of_lt hlt, Nat.add_mod, Nat.mod_eq_of_lt hlt]
      have hsum : a % m + (m - a % m) = m := by omega
      rw [hsum, Nat.mod_self]
  exact ⟨(m - a % m) % m, ⟨Nat.mod_lt _ hm, hex⟩,
    fun t2 ht2 => key t2 ((m - a % m) % m) ht2.1 (Nat.mod_lt _ hm) ht2.2 hex⟩

/-- C3 counterexample: from the service's initial state (empty cached
`lastDetections`, frame skip `2`) the first two scheduling ticks (with the
recognition call completing, empty, in between) both start recognition calls,
although the counter reaches `1` and then `2` — never `0`.  A tick with an
empty detection cache triggers a call regardless of the counter, so more than
1 of every `k+1` ticks can trigger, and a skipped tick with an empty cache
delivers nothing rather than the cached pair. -/
theorem skip_cadence_cex :
    (tickStep initState true).2 = TickOutcome.startCall
    ∧ (tickStep initState true).1.frameCount = 1
    ∧ (tickStep (completeStep (tickStep initState true).1 true [] 0) true).2 =
        TickOutcome.startCall
    ∧ (tickStep (completeStep (tickStep initState true).1 true [] 0) true).1.frameCount = 2 := by
  refine ⟨rfl, rfl, ?_, ?_⟩ <;> rfl

/-- A concrete scheduler state with a non-empty detection cache and no call in
flight. -/
def cachedState : SchedState :=
  { initState with
      lastDetections := [dogDetection]
      lastResult :=
        { hasAnomaly := true
          anomalyScore := 7/10
          anomalies := [{ object := "dog", bbox := dogDetection.bbox, score := 7/10 }] } }

/-- C3 amended: when the cached `lastDetections` is non-empty and no call is in
flight, a tick (with the video ready) starts a new recognition call iff the
counter, incremented modulo `frameSkip + 1`, reaches `0` — and exactly one of
the next `frameSkip + 1` tick positions does so; every other such tick
delivers the cached `(lastDetections, lastResult)` pair unchanged.  (When the
cache is empty the loop instead triggers on every tick with the flag clear,
per the counterexample.) -/
theorem skip_cadence (s : SchedState) (hne : s.lastDetections ≠ [])
    (hpf : s.processingFrame = false) :
    (∀ v, (tickStep s v).1.frameCount = (s.frameCount + 1) % (s.frameSkip + 1))
    ∧ ((tickStep s true).2 = TickOutcome.startCall ↔
        (s.frameCount + 1) % (s.frameSkip + 1) = 0)
    ∧ ((s.frameCount + 1) % (s.frameSkip + 1) ≠ 0 →
        (tickStep s true).2 = TickOutcome.emitCached
        ∧ (tickStep s true).1.lastDetections = s.lastDetections
        ∧ (tickStep s true).1.lastResult = s.lastResult)
    ∧ (∃! t, t < s.frameSkip + 1 ∧ (s.frameCount + 1 + t) % (s.frameSkip + 1) = 0) := by
  refine ⟨?_, ?_, ?_, exists_unique_zero_tick (s.frameCount + 1) (s.frameSkip + 1)
    (Nat.succ_pos _)⟩
  · intro v
    simp only [tickStep]
    split_ifs <;> rfl
  · by_cases hfc : (s.frameCount + 1) % (s.frameSkip + 1) = 0
    · simp [tickStep, hfc, hpf]
    · simp [tickStep, hfc, hne, hpf]
  · intro hfc
    refine ⟨?_, ?_, ?_⟩ <;> simp [tickStep, hfc, hne, hpf]

/-- C3 amended witness: the start-iff-counter-reaches-zero equivalence at a
concrete state with a non-empty cache and a clear flag. -/
theorem skip_cadence_witness :
    (tickStep cachedState true).2 = TickOutcome.startCall ↔
      (cachedState.frameCount + 1) % (cachedState.frameSkip + 1) = 0 :=
  (skip_cadence cachedState (List.cons_ne_nil _ _) rfl).2.1

/-- The ordered pairs of list elements in the order visited by the nested
`for i / for j = i+1` loops. -/
def detPairs : List Detection → List (Detection × Detection)
  | [] => []
  | d :: rest => rest.map (fun d2 => (d, d2)) ++ detPairs rest

/-- The index pairs `(i, j)` with `i < j < n` in the nested loop order. -/
def idxPairs : Nat → List (Nat × Nat)
  | 0 => []
  | n + 1 =>
      (List.range n).map (fun j => (0, j + 1)) ++
        (idxPairs n).map (fun p => (p.1 + 1, p.2 + 1))

/-- `idxPairs n` holds exactly the pairs `(i, j)` with `i < j < n`. -/
theorem mem_idxPairs (n i j : Nat) : (i, j) ∈ idxPairs n ↔ i < j ∧ j < n := by
  induction n generalizing i j with
  | zero => simp [idxPairs]
  | succ n ih =>
      simp only [idxPairs, List.mem_append, List.mem_map, List.mem_range, Prod.mk.injEq]
      constructor
      · rintro (⟨j1, hj1, h0, hj⟩ | ⟨⟨a, b⟩, hq, ha, hb⟩)
        · omega
        · have hab := (ih a b).mp hq
          simp only at ha hb
          omega
      · rintro ⟨hij, hjn⟩
        rcases Nat.eq_zero_or_pos i with hi | hi
        · exact Or.inl ⟨j - 1, by omega, by omega, by omega⟩
        · refine Or.inr ⟨(i - 1, j - 1), (ih _ _).mpr ⟨by omega, by omega⟩, ?_, ?_⟩ <;>
            simp only [] <;> omega

/-- `idxPairs n` lists each index pair once. -/
theorem idxPairs_nodup (n : Nat) : (idxPairs n).Nodup := by
  induction n with
  | zero => simp [idxPairs]
  | succ n ih =>
      simp only [idxPairs]
      apply List.Nodup.append
      · refine (List.nodup_range n).map ?_
        intro a b hab
        simpa using hab
      · refine ih.map ?_
        intro p q hpq
        obtain ⟨a, b⟩ := p
        obtain ⟨c, d⟩ := q
        simp only [Prod.mk.injEq] at hpq
        simp only [Prod.mk.injEq]
        omega
      · intro p hp1 hp2
        obtain ⟨i, j⟩ := p
        simp only [List.mem_map, List.mem_range, Prod.mk.injEq] at hp1 hp2
        obtain ⟨j1, _, h0, _⟩ := hp1
        obtain ⟨⟨a, b⟩, _, ha, _⟩ := hp2
        simp only at ha
        omega

/-- Reading a list back by positions: `map (getD · dflt)` over `range length`
is the identity. -/
theorem map_getD_range {α : Type} (l : List α) (dflt : α) :
    (List.range l.length).map (fun j => l.getD j dflt) = l := by
  induction l with
  | nil => simp
  | cons a t ih =>
      rw [List.length_cons, List.range_succ_eq_map, List.map_cons, List.map_map]
      simp only [List.getD_cons_zero, Function.comp_def, List.getD_cons_succ]
      rw [ih]

/-- A detection used only as the (never reached) `getD` fallback. -/
def emptyDetection : Detection :=
  { bbox := { x := 0, y := 0, w := 0, h := 0 }, cls := "", score := 0 }

/-- `detPairs` visits exactly the element pairs at index pairs `(i, j)`,
`i < j`, in loop order. -/
theorem detPairs_eq_idxPairs (ds : List Detection) :
    detPairs ds = (idxPairs ds.length).map
      (fun p => (ds.getD p.1 emptyDetection, ds.getD p.2 emptyDetection)) := by
  induction ds with
  | nil => simp [detPairs, idxPairs]
  | cons d rest ih =>
      simp only [detPairs, List.length_cons, idxPairs, List.map_append, List.map_map]
      have hhd : rest.map (fun d2 => (d, d2)) =
          (List.range rest.length).map
            ((fun p : Nat × Nat => ((d :: rest).getD p.1 emptyDetection,
              (d :: rest).getD p.2 emptyDetection)) ∘ (fun j => (0, j + 1))) := by
        conv_lhs => rw [← map_getD_range rest emptyDetection]
        rw [List.map_map]
        apply List.map_congr_left
        intro j hj
        simp [Function.comp_def]
      have htl : detPairs rest =
          (idxPairs rest.length).map
            ((fun p : Nat × Nat => ((d :: rest).getD p.1 emptyDetection,
              (d :: rest).getD p.2 emptyDetection)) ∘ (fun p : Nat × Nat => (p.1 + 1, p.2 + 1))) := by
        rw [ih]
        apply List.map_congr_left
        intro p hp
        simp [Function.comp_def]
      rw [← hhd, ← htl]

/-- C5: the interaction pass of `detectAnomalies` performs exactly one check
per unordered pair of distinct detections (the index pairs `i < j`, each
listed once), and a pair yields the synthetic anomaly
`interaction:<classA>_<classB>` with the fixed score `0.7` iff the boxes are
close — center distance below twice the average of the four box dimensions —
and the classes differ; a same-class pair yields none, however close.  The
last conjunct places the interaction anomalies in the output of
`detectAnomalies`. -/
theorem interaction_pairs (ds : List Detection) :
    interactionAnomalies ds =
      (detPairs ds).filterMap (fun p => interactionCheck p.1 p.2)
    ∧ detPairs ds = (idxPairs ds.length).map
        (fun p => (ds.getD p.1 emptyDetection, ds.getD p.2 emptyDetection))
    ∧ (idxPairs ds.length).Nodup
    ∧ (∀ i j : Nat, (i, j) ∈ idxPairs ds.length ↔ i < j ∧ j < ds.length)
    ∧ (∀ d1 d2 : Detection, ∀ a : Anomaly, interactionCheck d1 d2 = some a ↔
        (areBoxesClose d1.bbox d2.bbox = true ∧ d1.cls ≠ d2.cls
          ∧ a = { object := "interaction:" ++ d1.cls ++ "_" ++ d2.cls,
                  bbox := d1.bbox, score := 7/10 }))
    ∧ (∀ d1 d2 : Detection, d1.cls = d2.cls → interactionCheck d1 d2 = none)
    ∧ (∀ (hist : List HistoryEntry) (now : Int),
        (detectAnomalies hist ds now).1.anomalies =
          ds.filterMap (ruleCheck (fun c => objectFrequency (updateHistory hist ds now) c))
            ++ interactionAnomalies ds) := by
  refine ⟨?_, detPairs_eq_idxPairs ds, idxPairs_nodup ds.length,
    fun i j => mem_idxPairs ds.length i j, ?_, ?_, fun hist now => rfl⟩
  · induction ds with
    | nil => rfl
    | cons d rest ih =>
        simp only [interactionAnomalies, detPairs, List.filterMap_append,
          List.filterMap_map, ih]
        rfl
  · intro d1 d2 a
    unfold interactionCheck
    split_ifs with hc
    · simp only [Option.some_inj]
      constructor
      · rintro rfl
        exact ⟨hc.1, hc.2, rfl⟩
      · rintro ⟨h1, h2, rfl⟩
        rfl
    · constructor
      · intro h
        simp at h
      · rintro ⟨hclose, hneq, h3⟩
        exact absurd ⟨hclose, hneq⟩ hc
  · intro d1 d2 heq
    unfold interactionCheck
    rw [if_neg]
    rintro ⟨h1, hne⟩
    exact hne heq

/-- The pedestrian rule never exceeds `1`. -/
theorem pedestrianRule_le_one (f : Nat) : pedestrianRule f ≤ 1 := by
  unfold pedestrianRule
  split_ifs with hf
  · have : min ((f : ℚ) / 10) (3/10) ≤ 3/10 := min_le_right _ _
    linarith
  · norm_num

/-- The pedestrian rule is `0.7`-based whenever positive. -/
theorem pedestrianRule_pos_ge (f : Nat) (h : 0 < pedestrianRule f) :
    7/10 ≤ pedestrianRule f := by
  unfold pedestrianRule at h ⊢
  split_ifs with hf
  · have hmin : (0 : ℚ) ≤ min ((f : ℚ) / 10) (3/10) := le_min (by positivity) (by norm_num)
    linarith
  · rw [if_neg hf] at h
    exact absurd h (by norm_num)

/-- Every anomaly emitted by the per-detection rule pass has score in
`[0.5, 1]`. -/
theorem ruleCheck_score_bounds (freq : String → Nat) (d : Detection) (a : Anomaly)
    (h : ruleCheck freq d = some a) : (1/2 : ℚ) ≤ a.score ∧ a.score ≤ 1 := by
  unfold ruleCheck at h
  rcases hr : anomalyRules d.cls with _ | rule
  · rw [hr] at h
    simp only at h
    split_ifs at h
    obtain rfl := Option.some_inj.mp h.symm
    constructor <;> norm_num
  · rw [hr] at h
    simp only at h
    split_ifs at h with hpos
    obtain rfl := Option.some_inj.mp h.symm
    simp only
    unfold anomalyRules at hr
    split_ifs at hr <;> obtain rfl := Option.some_inj.mp hr.symm
    · exact ⟨le_trans (by norm_num) (pedestrianRule_pos_ge _ hpos),
        pedestrianRule_le_one _⟩
    all_goals constructor <;> norm_num

/-- Every anomaly in the interaction pass output comes from a pair check. -/
theorem mem_interactionAnomalies {a : Anomaly} {l : List Detection}
    (h : a ∈ interactionAnomalies l) : ∃ d1 d2, interactionCheck d1 d2 = some a := by
  induction l with
  | nil => simp [interactionAnomalies] at h
  | cons d rest ih =>
      simp only [interactionAnomalies, List.mem_append, List.mem_filterMap] at h
      rcases h with ⟨d2, _, hc⟩ | h2
      · exact ⟨d, d2, hc⟩
      · exact ih h2

/-- A successful interaction check emits the fixed score `0.7`. -/
theorem interactionCheck_score (d1 d2 : Detection) (a : Anomaly)
    (h : interactionCheck d1 d2 = some a) : a.score = 7/10 := by
  unfold interactionCheck at h
  split_ifs at h
  obtain rfl := Option.some_inj.mp h.symm
  rfl

/-- The mean of a non-empty list of rationals lies between any bounds its
elements satisfy. -/
theorem sum_div_length_bounds (l : List ℚ) (lo hi : ℚ)
    (hb : ∀ x ∈ l, lo ≤ x ∧ x ≤ hi) (hne : l ≠ []) :
    lo ≤ l.sum / (l.length : ℚ) ∧ l.sum / (l.length : ℚ) ≤ hi := by
  have hlen : 0 < l.length := List.length_pos.mpr hne
  have hlenq : (0 : ℚ) < (l.length : ℚ) := by exact_mod_cast hlen
  constructor
  · rw [le_div_iff₀ hlenq]
    have hsum := List.card_nsmul_le_sum l lo (fun x hx => (hb x hx).1)
    calc lo * (l.length : ℚ) = l.length • lo := by rw [nsmul_eq_mul, mul_comm]
      _ ≤ l.sum := hsum
  · rw [div_le_iff₀ hlenq]
    have hsum := List.sum_le_card_nsmul l hi (fun x hx => (hb x hx).2)
    calc l.sum ≤ l.length • hi := hsum
      _ = hi * (l.length : ℚ) := by rw [nsmul_eq_mul, mul_comm]

/-- C10: every anomaly emitted by `detectAnomalies` has a score in
`[0.5, 1.0]` (registered rules emit at most `0.7 + min(frequency/10, 0.3) ≤ 1`
and, when positive, at least `0.5`; default and interaction anomalies carry
the fixed `0.7`); hence the aggregate `anomalyScore` lies in `[0, 1]` and is
strictly positive exactly when `hasAnomaly` is true. -/
theorem anomaly_score_bounds (hist : List HistoryEntry) (ds : List Detection) (now : Int) :
    (∀ a ∈ (detectAnomalies hist ds now).1.anomalies, (1/2 : ℚ) ≤ a.score ∧ a.score ≤ 1)
    ∧ 0 ≤ (detectAnomalies hist ds now).1.anomalyScore
    ∧ (detectAnomalies hist ds now).1.anomalyScore ≤ 1
    ∧ (0 < (detectAnomalies hist ds now).1.anomalyScore ↔
        (detectAnomalies hist ds now).1.hasAnomaly = true) := by
  have hmem : ∀ a ∈ (detectAnomalies hist ds now).1.anomalies,
      (1/2 : ℚ) ≤ a.score ∧ a.score ≤ 1 := by
    intro a ha
    have ha2 : a ∈ ds.filterMap
        (ruleCheck (fun c => objectFrequency (updateHistory hist ds now) c))
        ++ interactionAnomalies ds := ha
    rcases List.mem_append.mp ha2 with h1 | h2
    · obtain ⟨d, _, hc⟩ := List.mem_filterMap.mp h1
      exact ruleCheck_score_bounds _ _ _ hc
    · obtain ⟨d1, d2, hc⟩ := mem_interactionAnomalies h2
      rw [interactionCheck_score d1 d2 a hc]
      constructor <;> norm_num
  have hscore : (detectAnomalies hist ds now).1.anomalyScore =
      if 0 < (detectAnomalies hist ds now).1.anomalies.length
      then ((detectAnomalies hist ds now).1.anomalies.map Anomaly.score).sum /
        (((detectAnomalies hist ds now).1.anomalies.length : ℚ))
      else 0 := rfl
  have hhas : (detectAnomalies hist ds now).1.hasAnomaly =
      decide (0 < (detectAnomalies hist ds now).1.anomalies.length) := rfl
  refine ⟨hmem, ?_, ?_, ?_⟩ <;> rw [hscore]
  · split_ifs with hlen
    · have hne : (detectAnomalies hist ds now).1.anomalies ≠ [] := by
        intro hnil
        rw [hnil] at hlen
        simp at hlen
      have hb := sum_div_length_bounds
        ((detectAnomalies hist ds now).1.anomalies.map Anomaly.score) (1/2) 1
        (by
          intro x hx
          obtain ⟨a, ha, rfl⟩ := List.mem_map.mp hx
          exact hmem a ha)
        (by simpa using hne)
      rw [List.length_map] at hb
      linarith [hb.1]
    · norm_num
  · split_ifs with hlen
    · have hne : (detectAnomalies hist ds now).1.anomalies ≠ [] := by
        intro hnil
        rw [hnil] at hlen
        simp at hlen
      have hb := sum_div_length_bounds
        ((detectAnomalies hist ds now).1.anomalies.map Anomaly.score) (1/2) 1
        (by
          intro x hx
          obtain ⟨a, ha, rfl⟩ := List.mem_map.mp hx
          exact hmem a ha)
        (by simpa using hne)
      rw [List.length_map] at hb
      exact hb.2
    · norm_num
  · rw [hhas]
    split_ifs with hlen
    · have hne : (detectAnomalies hist ds now).1.anomalies ≠ [] := by
        intro hnil
        rw [hnil] at hlen
        simp at hlen
      have hb := sum_div_length_bounds
        ((detectAnomalies hist ds now).1.anomalies.map Anomaly.score) (1/2) 1
        (by
          intro x hx
          obtain ⟨a, ha, rfl⟩ := List.mem_map.mp hx
          exact hmem a ha)
        (by simpa using hne)
      rw [List.length_map] at hb
      rw [decide_eq_true hlen]
      constructor
      · intro _
        rfl
      · intro _
        linarith [hb.1]
    · rw [decide_eq_false hlen]
      constructor
      · intro h
        exact absurd h (by norm_num)
      · intro h
        simp at h

end AnomalyMonitor
